import Mathlib

/-!
Shallow embedding of the scoring core of `cdmetadl/scoring_program/scoring_helpers.py`.

Python floats are modelled as exact rationals (`ℚ`) for the metric pipeline and as
real numbers (`ℝ`) for the confidence-interval computation (which involves square
roots).  NumPy / SciPy / scikit-learn library calls are embedded from their
documented semantics:
  * `np.argmax(axis=1)` — per-row index of the maximum, ties resolved to the
    first occurrence; raises on a 1-D input or on empty rows;
  * `accuracy_score`, `{precision,recall,f1}_score(average="macro",
    zero_division=0)` — scikit-learn classification metrics over the label set
    present in either argument, with length validation;
  * `np.min` / `np.max` — raise on an empty array;
  * `np.linspace`, `np.histogram` — bin edges and counts (cumulative
    searchsorted formulation, last bin right-inclusive);
  * `scipy.stats.sem` — sample standard deviation (ddof = 1) divided by √n;
  * `scipy.stats.t.ppf` — kept abstract (a parameter), since the Student-t
    quantile has no closed form.
-/

namespace ScoringHelpers

/-! ### np.argmax decoding (per row, first occurrence wins ties) -/

/-- Maximum entry of a row (`0` for an empty row, which never arises: the
embedding of `np.argmax` rejects empty rows first). -/
def rowMax : List ℚ → ℚ
  | [] => 0
  | [x] => x
  | x :: y :: ys => max x (rowMax (y :: ys))

/-- Index of the maximum entry of a row, first occurrence on ties —
the semantics of `np.argmax` applied to one row. -/
def npArgmax : List ℚ → ℕ
  | [] => 0
  | [_] => 0
  | x :: y :: ys => if x < rowMax (y :: ys) then npArgmax (y :: ys) + 1 else 0

/-- A Python exception escaping one of the repository's metric functions:
either the raw library error (raised outside the `try` block) or the
wrapped "score cannot be computed" error, which records the name of the
metric function and carries the underlying cause. -/
inductive PyError where
  | raw (msg : String)
  | wrapped (fn : String) (cause : String)

/-- A NumPy array argument as received by the metric functions: either a
1-D vector or a 2-D row list. -/
inductive NDArray where
  | oneD (a : List ℚ)
  | twoD (rows : List (List ℚ))

/-- Embedding of `np.argmax(y_pred, axis=1)`: fails on a 1-D array (axis 1 out of bounds)
and on an array with an empty row; otherwise decodes every row. -/
def npArgmaxAxis1 : NDArray → Except String (List ℕ)
  | .oneD _ => .error "AxisError: axis 1 is out of bounds for array of dimension 1"
  | .twoD rows =>
      if rows.any (·.isEmpty) then
        .error "ValueError: attempt to get argmax of an empty sequence"
      else
        .ok (rows.map npArgmax)

/-! ### scikit-learn metric bodies (pure values, on already-decoded labels) -/

/-- Embedding of `sklearn.metrics.accuracy_score`: fraction of positions where the two
label lists agree. -/
def accuracy_score (y_true y_pred : List ℕ) : ℚ :=
  (((y_true.zip y_pred).countP fun p => p.1 == p.2) : ℚ) / (y_true.length : ℚ)

/-- Label set used for macro averaging: the classes present in either
`y_true` or `y_pred` (scikit-learn's `unique_labels`). -/
def labelsOf (y_true y_pred : List ℕ) : Finset ℕ :=
  y_true.toFinset ∪ y_pred.toFinset

/-- True positives of class `c`: positions predicted `c` whose true label
is also `c`. -/
def tpCount (y_true y_pred : List ℕ) (c : ℕ) : ℕ :=
  (y_true.zip y_pred).countP fun p => p.1 == c && p.2 == c

/-- Per-class precision with `zero_division=0`: `tp / (number predicted c)`,
and `0` when nothing is predicted `c`. -/
def precisionClass (y_true y_pred : List ℕ) (c : ℕ) : ℚ :=
  if y_pred.count c = 0 then 0
  else (tpCount y_true y_pred c : ℚ) / (y_pred.count c : ℚ)

/-- Per-class recall with `zero_division=0`: `tp / (number truly c)`,
and `0` when no true label is `c`. -/
def recallClass (y_true y_pred : List ℕ) (c : ℕ) : ℚ :=
  if y_true.count c = 0 then 0
  else (tpCount y_true y_pred c : ℚ) / (y_true.count c : ℚ)

/-- Per-class F1 with `zero_division=0`: harmonic mean of per-class
precision and recall, and `0` when both vanish. -/
def f1Class (y_true y_pred : List ℕ) (c : ℕ) : ℚ :=
  if precisionClass y_true y_pred c + recallClass y_true y_pred c = 0 then 0
  else 2 * precisionClass y_true y_pred c * recallClass y_true y_pred c /
    (precisionClass y_true y_pred c + recallClass y_true y_pred c)

/-- Macro average: arithmetic mean of a per-class value over a class set. -/
def macroAverage (S : Finset ℕ) (f : ℕ → ℚ) : ℚ :=
  (∑ c ∈ S, f c) / (S.card : ℚ)

/-- Embedding of `precision_score(y_true, y_pred, average="macro", zero_division=0)`. -/
def precision_score (y_true y_pred : List ℕ) : ℚ :=
  macroAverage (labelsOf y_true y_pred) (precisionClass y_true y_pred)

/-- Embedding of `recall_score(y_true, y_pred, average="macro", zero_division=0)`. -/
def recall_score (y_true y_pred : List ℕ) : ℚ :=
  macroAverage (labelsOf y_true y_pred) (recallClass y_true y_pred)

/-- Embedding of `f1_score(y_true, y_pred, average="macro", zero_division=0)`. -/
def f1_score (y_true y_pred : List ℕ) : ℚ :=
  macroAverage (labelsOf y_true y_pred) (f1Class y_true y_pred)

/-- scikit-learn's error message for a sample-count mismatch. -/
def lengthMismatchMsg : String :=
  "ValueError: Found input variables with inconsistent numbers of samples"

/-- scikit-learn's input validation shared by the four metrics: the two
label lists must have the same number of samples. -/
def checkLengths (y_true y_pred : List ℕ) (v : ℚ) : Except String ℚ :=
  if y_true.length ≠ y_pred.length then .error lengthMismatchMsg
  else .ok v

/-! ### The repository's metric functions (lines 342-432) -/

/-- Embedding of `accuracy(y_true, y_pred)`: decodes `y_pred` by arg-max **outside** the
`try` block, then computes `accuracy_score` inside it, wrapping any failure. -/
def accuracy (y_true : List ℕ) (y_pred : NDArray) : Except PyError ℚ :=
  match npArgmaxAxis1 y_pred with
  | .error m => .error (.raw m)
  | .ok yp =>
      match checkLengths y_true yp (accuracy_score y_true yp) with
      | .ok v => .ok v
      | .error cause => .error (.wrapped "accuracy" cause)

/-- Embedding of `macro_f1_score(y_true, y_pred)`: arg-max decoding outside the `try`
block, macro-averaged F1 inside it. -/
def macro_f1_score (y_true : List ℕ) (y_pred : NDArray) : Except PyError ℚ :=
  match npArgmaxAxis1 y_pred with
  | .error m => .error (.raw m)
  | .ok yp =>
      match checkLengths y_true yp (f1_score y_true yp) with
      | .ok v => .ok v
      | .error cause => .error (.wrapped "macro_f1_score" cause)

/-- Embedding of `macro_precision(y_true, y_pred)`: arg-max decoding outside the `try`
block, macro-averaged precision inside it. -/
def macro_precision (y_true : List ℕ) (y_pred : NDArray) : Except PyError ℚ :=
  match npArgmaxAxis1 y_pred with
  | .error m => .error (.raw m)
  | .ok yp =>
      match checkLengths y_true yp (precision_score y_true yp) with
      | .ok v => .ok v
      | .error cause => .error (.wrapped "macro_precision" cause)

/-- Embedding of `macro_recall(y_true, y_pred)`: arg-max decoding outside the `try`
block, macro-averaged recall inside it. -/
def macro_recall (y_true : List ℕ) (y_pred : NDArray) : Except PyError ℚ :=
  match npArgmaxAxis1 y_pred with
  | .error m => .error (.raw m)
  | .ok yp =>
      match checkLengths y_true yp (recall_score y_true yp) with
      | .ok v => .ok v
      | .error cause => .error (.wrapped "macro_recall" cause)

/-- Embedding of `compute_all_scores(y_true, y_pred)` (lines 435-457): evaluates the four
metrics sequentially in dict insertion order; the first failure aborts the
remaining metrics. -/
def compute_all_scores (y_true : List ℕ) (y_pred : NDArray) :
    Except PyError (List (String × ℚ)) := do
  let a ← accuracy y_true y_pred
  let f ← macro_f1_score y_true y_pred
  let p ← macro_precision y_true y_pred
  let r ← macro_recall y_true y_pred
  pure [("Accuracy", a), ("Macro F1 Score", f), ("Macro Precision", p),
    ("Macro Recall", r)]

/-! ### get_score (lines 190-214) -/

/-- The four metric functions of the "SCORE FUNCTIONS" section. -/
def knownMetricNames : List String :=
  ["accuracy", "macro_f1_score", "macro_precision", "macro_recall"]

/-- Every top-level attribute of the `scoring_helpers` module namespace:
the imported modules and names (lines 1-15) together with every function
defined in the file.  `getattr(modules[__name__], score_name)` succeeds
exactly on these names. -/
def moduleAttributes : List String :=
  ["os", "shutil", "yaml", "base64", "re", "np", "pd", "ss", "sns", "plt",
   "modules", "ls", "accuracy_score", "f1_score", "precision_score",
   "recall_score", "Tuple", "List", "Callable",
   "vprint", "exist_dir", "print_list", "show_dir", "mvdir", "mkdir",
   "load_yaml", "create_path_here", "natural_sort", "read_results_file",
   "get_score", "mean_confidence_interval", "create_histogram",
   "create_heatmap", "accuracy", "macro_f1_score", "macro_precision",
   "macro_recall"]

/-- Python `str.title()` restricted to ASCII letters: a letter is
upper-cased when the previous character is not a letter, lower-cased
otherwise. -/
def pythonTitleAux : Bool → List Char → List Char
  | _, [] => []
  | prevAlpha, c :: cs =>
      (if c.isAlpha then (if prevAlpha then c.toLower else c.toUpper) else c)
        :: pythonTitleAux c.isAlpha cs

/-- Python `str.title()`. -/
def pythonTitle (s : String) : String :=
  String.mk (pythonTitleAux false s.data)

/-- Embedding of `get_score()` with the line read from `scores.txt` made explicit as the
argument: resolves `score_name` by `getattr` on the module namespace
(`none` models the `NotImplementedError` raised when the lookup fails) and
on success returns the human-readable label (underscores to spaces, then
title case) together with the name of the resolved attribute. -/
def get_score (score_name : String) : Option (String × String) :=
  if score_name ∈ moduleAttributes then
    some (pythonTitle (score_name.replace "_" " "), score_name)
  else
    none

/-! ### create_heatmap (lines 288-334): limits, bins and grid -/

/-- Embedding of `np.min`: raises on a zero-size array. -/
def npMin (a : List ℚ) : Except String ℚ :=
  match a.min? with
  | none => .error "ValueError: zero-size array to reduction operation minimum"
  | some m => .ok m

/-- Embedding of `np.max`: raises on a zero-size array. -/
def npMax (a : List ℚ) : Except String ℚ :=
  match a.max? with
  | none => .error "ValueError: zero-size array to reduction operation maximum"
  | some m => .ok m

/-- The limit loop of `create_heatmap` (lines 308-312).  The accumulator
components model `minimum` and `maximum`; `none` stands for the initial
IEEE `np.inf` / `-np.inf`, which every finite value improves on. -/
def heatLimits : List (List ℚ) → Option ℚ × Option ℚ →
    Except String (Option ℚ × Option ℚ)
  | [], acc => .ok acc
  | c :: cs, acc =>
      match npMin c, npMax c with
      | .ok lo, .ok hi =>
          heatLimits cs
            (some (match acc.1 with | none => lo | some m => min lo m),
             some (match acc.2 with | none => hi | some m => max hi m))
      | .error e, _ => .error e
      | .ok _, .error e => .error e

/-- Embedding of `np.linspace lo hi num`: `num` evenly spaced points from `lo` to `hi`
inclusive. -/
def np_linspace (lo hi : ℚ) (num : ℕ) : List ℚ :=
  (List.range num).map fun (i : ℕ) =>
    lo + (hi - lo) * (i : ℚ) / ((num - 1 : ℕ) : ℚ)

/-- Embedding of `np.histogram(a, bins=edges)[0]` for explicit edges, in NumPy's
cumulative-searchsorted formulation: bin `j` counts values below edge
`j+1` (below-or-equal for the final, right-inclusive bin) minus values
below edge `j`. -/
def np_histogram (a : List ℚ) (edges : List ℚ) : List ℕ :=
  (List.range (edges.length - 1)).map fun j =>
    (if j + 2 = edges.length then a.countP fun x => x ≤ edges.getD (j + 1) 0
     else a.countP fun x => x < edges.getD (j + 1) 0)
      - a.countP fun x => x < edges.getD j 0

/-- The computational core of `create_heatmap`, with the per-key dictionary
accesses `data[key][score_name]` flattened into the ordered list of the
groups' score collections (one entry per element of `keys`, in key order):
computes the global limits, the 11 shared bin edges, and the grid of
per-group bin counts.  When both limits are still infinite (no keys at
all) the comprehension produces an empty grid and no finite bin edges
exist; errors raised by the NumPy reductions propagate. -/
def create_heatmap (collections : List (List ℚ)) :
    Except String (List (List ℕ)) :=
  match heatLimits collections (none, none) with
  | .error e => .error e
  | .ok (some lo, some hi) =>
      .ok (collections.map fun c => np_histogram c (np_linspace lo hi 11))
  | .ok (_, _) => .ok []

/-! ### mean_confidence_interval (lines 217-240), over ℝ -/

/-- Embedding of `np.mean`: arithmetic mean. -/
noncomputable def np_mean (data : List ℝ) : ℝ := data.sum / (data.length : ℝ)

/-- Sample standard deviation with `ddof = 1`, as used by
`scipy.stats.sem`. -/
noncomputable def sample_std (data : List ℝ) : ℝ :=
  Real.sqrt ((data.map fun x => (x - np_mean data) ^ 2).sum /
    ((data.length : ℝ) - 1))

/-- Embedding of `scipy.stats.sem`: sample standard deviation divided by √n. -/
noncomputable def scipy_sem (data : List ℝ) : ℝ :=
  sample_std data / Real.sqrt (data.length : ℝ)

/-- Embedding of `mean_confidence_interval(data, confidence)`.  `tppf p df` stands for
`scipy.stats.t.ppf(p, df)`, the Student-t quantile, kept abstract (it has
no closed form); `none` models the Python `None` returned for empty data. -/
noncomputable def mean_confidence_interval (tppf : ℝ → ℕ → ℝ)
    (data : List ℝ) (confidence : ℝ) : Option ℝ × Option ℝ :=
  if data.length = 0 then (none, none)
  else if 1 < data.length then
    (some (np_mean data),
     some (scipy_sem data * tppf ((1 + confidence) / 2) (data.length - 1)))
  else (some data.headI, some 0)

/-! ## Lemmas about arg-max decoding -/

theorem rowMax_cons_cons (x y : ℚ) (ys : List ℚ) :
    rowMax (x :: y :: ys) = max x (rowMax (y :: ys)) := rfl

theorem npArgmax_cons_cons (x y : ℚ) (ys : List ℚ) :
    npArgmax (x :: y :: ys) =
      if x < rowMax (y :: ys) then npArgmax (y :: ys) + 1 else 0 := rfl

theorem npArgmax_lt_length (l : List ℚ) (hl : l ≠ []) :
    npArgmax l < l.length := by
  induction l with
  | nil => exact absurd rfl hl
  | cons x xs ih =>
    cases xs with
    | nil => simp [npArgmax]
    | cons y ys =>
      rw [npArgmax_cons_cons]
      split
      · have := ih (by simp)
        simpa [Nat.succ_lt_succ_iff] using this
      · simp

theorem getD_npArgmax (l : List ℚ) (hl : l ≠ []) :
    l.getD (npArgmax l) 0 = rowMax l := by
  induction l with
  | nil => exact absurd rfl hl
  | cons x xs ih =>
    cases xs with
    | nil => simp [npArgmax, rowMax]
    | cons y ys =>
      rw [npArgmax_cons_cons, rowMax_cons_cons]
      split
      · rename_i h
        rw [List.getD_cons_succ, ih (by simp), max_eq_right (le_of_lt h)]
      · rename_i h
        rw [List.getD_cons_zero, max_eq_left (not_lt.mp h)]

theorem getD_le_rowMax (l : List ℚ) (j : ℕ) (hj : j < l.length) :
    l.getD j 0 ≤ rowMax l := by
  induction l generalizing j with
  | nil => simp at hj
  | cons x xs ih =>
    cases xs with
    | nil =>
      cases j with
      | zero => simp [rowMax]
      | succ j => simp at hj
    | cons y ys =>
      rw [rowMax_cons_cons]
      cases j with
      | zero => rw [List.getD_cons_zero]; exact le_max_left _ _
      | succ j =>
        rw [List.getD_cons_succ]
        exact le_trans (ih j (by simpa using hj)) (le_max_right _ _)

theorem getD_lt_rowMax_of_lt_npArgmax (l : List ℚ) (j : ℕ)
    (hj : j < npArgmax l) : l.getD j 0 < rowMax l := by
  induction l generalizing j with
  | nil => simp [npArgmax] at hj
  | cons x xs ih =>
    cases xs with
    | nil => simp [npArgmax] at hj
    | cons y ys =>
      rw [rowMax_cons_cons]
      rw [npArgmax_cons_cons] at hj
      by_cases hx : x < rowMax (y :: ys)
      · rw [if_pos hx] at hj
        cases j with
        | zero =>
          rw [List.getD_cons_zero]
          exact lt_of_lt_of_le hx (le_max_right _ _)
        | succ j =>
          rw [List.getD_cons_succ]
          exact lt_of_lt_of_le (ih j (Nat.lt_of_succ_lt_succ hj))
            (le_max_right _ _)
      · rw [if_neg hx] at hj
        omega

/-! ## Lemmas bounding the metric values -/

theorem div_unit_of_le (a b : ℕ) (h : a ≤ b) :
    0 ≤ (a : ℚ) / (b : ℚ) ∧ (a : ℚ) / (b : ℚ) ≤ 1 := by
  constructor
  · positivity
  · rcases Nat.eq_zero_or_pos b with hb | hb
    · subst hb
      simp_all
    · rw [div_le_one (by exact_mod_cast hb)]
      exact_mod_cast h

theorem accuracy_score_unit (yt yp : List ℕ) :
    0 ≤ accuracy_score yt yp ∧ accuracy_score yt yp ≤ 1 := by
  have h : (yt.zip yp).countP (fun p => p.1 == p.2) ≤ yt.length := by
    calc (yt.zip yp).countP (fun p => p.1 == p.2) ≤ (yt.zip yp).length :=
          List.countP_le_length _
    _ ≤ yt.length := by rw [List.length_zip]; omega
  exact div_unit_of_le _ _ h

theorem tpCount_le_count_right (c : ℕ) (yt yp : List ℕ) :
    tpCount yt yp c ≤ yp.count c := by
  induction yt generalizing yp with
  | nil => simp [tpCount]
  | cons a yt ih =>
    cases yp with
    | nil => simp [tpCount]
    | cons b yp =>
      have h := ih yp
      simp only [tpCount, List.zip_cons_cons, List.countP_cons,
        List.count_cons] at h ⊢
      by_cases h1 : a = c <;> by_cases h2 : b = c <;> simp [h1, h2] <;> omega

theorem tpCount_le_count_left (c : ℕ) (yt yp : List ℕ) :
    tpCount yt yp c ≤ yt.count c := by
  induction yt generalizing yp with
  | nil => simp [tpCount]
  | cons a yt ih =>
    cases yp with
    | nil => simp [tpCount]
    | cons b yp =>
      have h := ih yp
      simp only [tpCount, List.zip_cons_cons, List.countP_cons,
        List.count_cons] at h ⊢
      by_cases h1 : a = c <;> by_cases h2 : b = c <;> simp [h1, h2] <;> omega

theorem precisionClass_unit (yt yp : List ℕ) (c : ℕ) :
    0 ≤ precisionClass yt yp c ∧ precisionClass yt yp c ≤ 1 := by
  unfold precisionClass
  split
  · norm_num
  · exact div_unit_of_le _ _ (tpCount_le_count_right c yt yp)

theorem recallClass_unit (yt yp : List ℕ) (c : ℕ) :
    0 ≤ recallClass yt yp c ∧ recallClass yt yp c ≤ 1 := by
  unfold recallClass
  split
  · norm_num
  · exact div_unit_of_le _ _ (tpCount_le_count_left c yt yp)

theorem f1Class_unit (yt yp : List ℕ) (c : ℕ) :
    0 ≤ f1Class yt yp c ∧ f1Class yt yp c ≤ 1 := by
  obtain ⟨hp0, hp1⟩ := precisionClass_unit yt yp c
  obtain ⟨hr0, hr1⟩ := recallClass_unit yt yp c
  unfold f1Class
  split
  · norm_num
  · rename_i h
    have hpos : 0 < precisionClass yt yp c + recallClass yt yp c :=
      lt_of_le_of_ne (by linarith) (Ne.symm h)
    constructor
    · apply div_nonneg _ (le_of_lt hpos)
      nlinarith
    · rw [div_le_one hpos]
      nlinarith

theorem macroAverage_unit (S : Finset ℕ) (f : ℕ → ℚ)
    (h : ∀ c ∈ S, 0 ≤ f c ∧ f c ≤ 1) :
    0 ≤ macroAverage S f ∧ macroAverage S f ≤ 1 := by
  unfold macroAverage
  have h0 : 0 ≤ ∑ c ∈ S, f c := Finset.sum_nonneg fun c hc => (h c hc).1
  have h1 : ∑ c ∈ S, f c ≤ (S.card : ℚ) := by
    calc ∑ c ∈ S, f c ≤ ∑ _c ∈ S, (1 : ℚ) :=
          Finset.sum_le_sum fun c hc => (h c hc).2
    _ = (S.card : ℚ) := by simp
  constructor
  · positivity
  · rcases Finset.eq_empty_or_nonempty S with hS | hS
    · subst hS; simp
    · rw [div_le_one (by exact_mod_cast Finset.card_pos.mpr hS)]
      exact h1

theorem precision_score_unit (yt yp : List ℕ) :
    0 ≤ precision_score yt yp ∧ precision_score yt yp ≤ 1 :=
  macroAverage_unit _ _ fun c _ => precisionClass_unit yt yp c

theorem recall_score_unit (yt yp : List ℕ) :
    0 ≤ recall_score yt yp ∧ recall_score yt yp ≤ 1 :=
  macroAverage_unit _ _ fun c _ => recallClass_unit yt yp c

theorem f1_score_unit (yt yp : List ℕ) :
    0 ≤ f1_score yt yp ∧ f1_score yt yp ≤ 1 :=
  macroAverage_unit _ _ fun c _ => f1Class_unit yt yp c

/-! ## Lemmas about the staged metric functions -/

theorem npArgmaxAxis1_twoD (rows : List (List ℚ)) (h : ∀ r ∈ rows, r ≠ []) :
    npArgmaxAxis1 (.twoD rows) = .ok (rows.map npArgmax) := by
  have hany : rows.any (·.isEmpty) = false := by
    rw [List.any_eq_false]
    intro r hr
    simpa [List.isEmpty_iff] using h r hr
  simp [npArgmaxAxis1, hany]

theorem checkLengths_eq_ok (yt yp : List ℕ) (v : ℚ)
    (h : yt.length = yp.length) : checkLengths yt yp v = .ok v := by
  simp [checkLengths, h]

theorem accuracy_eq_ok (yt : List ℕ) (rows : List (List ℚ))
    (hrows : ∀ r ∈ rows, r ≠ []) (hlen : rows.length = yt.length) :
    accuracy yt (.twoD rows) = .ok (accuracy_score yt (rows.map npArgmax)) := by
  have hck : yt.length = (rows.map npArgmax).length := by
    rw [List.length_map, ← hlen]
  simp only [accuracy, npArgmaxAxis1_twoD rows hrows]
  rw [checkLengths_eq_ok yt (rows.map npArgmax) (accuracy_score yt (rows.map npArgmax)) hck]

theorem macro_f1_score_eq_ok (yt : List ℕ) (rows : List (List ℚ))
    (hrows : ∀ r ∈ rows, r ≠ []) (hlen : rows.length = yt.length) :
    macro_f1_score yt (.twoD rows) = .ok (f1_score yt (rows.map npArgmax)) := by
  have hck : yt.length = (rows.map npArgmax).length := by
    rw [List.length_map, ← hlen]
  simp only [macro_f1_score, npArgmaxAxis1_twoD rows hrows]
  rw [checkLengths_eq_ok yt (rows.map npArgmax) (f1_score yt (rows.map npArgmax)) hck]

theorem macro_precision_eq_ok (yt : List ℕ) (rows : List (List ℚ))
    (hrows : ∀ r ∈ rows, r ≠ []) (hlen : rows.length = yt.length) :
    macro_precision yt (.twoD rows) =
      .ok (precision_score yt (rows.map npArgmax)) := by
  have hck : yt.length = (rows.map npArgmax).length := by
    rw [List.length_map, ← hlen]
  simp only [macro_precision, npArgmaxAxis1_twoD rows hrows]
  rw [checkLengths_eq_ok yt (rows.map npArgmax) (precision_score yt (rows.map npArgmax)) hck]

theorem macro_recall_eq_ok (yt : List ℕ) (rows : List (List ℚ))
    (hrows : ∀ r ∈ rows, r ≠ []) (hlen : rows.length = yt.length) :
    macro_recall yt (.twoD rows) = .ok (recall_score yt (rows.map npArgmax)) := by
  have hck : yt.length = (rows.map npArgmax).length := by
    rw [List.length_map, ← hlen]
  simp only [macro_recall, npArgmaxAxis1_twoD rows hrows]
  rw [checkLengths_eq_ok yt (rows.map npArgmax) (recall_score yt (rows.map npArgmax)) hck]

/-! ## Claim C2 -/

/-- C2: on every valid pair — `y_true` nonempty, `y_pred` a matching-length
matrix of nonempty rows — each of the four metric functions succeeds with a
value in the closed interval [0, 1]; moreover a class with a zero
denominator contributes 0 to the macro average instead of a division
error (`zero_division=0`): per-class precision is 0 when the class is
never predicted, per-class recall is 0 when the class never truly occurs,
and per-class F1 is 0 when precision and recall both vanish.
(scikit-learn additionally rejects empty inputs, hence the nonemptiness
hypothesis.) -/
theorem C2_metrics_unit_interval (yt : List ℕ) (rows : List (List ℚ))
    (hlen : rows.length = yt.length) (hrows : ∀ r ∈ rows, r ≠ [])
    (_hne : yt ≠ []) :
    (∃ v, accuracy yt (.twoD rows) = .ok v ∧ 0 ≤ v ∧ v ≤ 1) ∧
    (∃ v, macro_f1_score yt (.twoD rows) = .ok v ∧ 0 ≤ v ∧ v ≤ 1) ∧
    (∃ v, macro_precision yt (.twoD rows) = .ok v ∧ 0 ≤ v ∧ v ≤ 1) ∧
    (∃ v, macro_recall yt (.twoD rows) = .ok v ∧ 0 ≤ v ∧ v ≤ 1) ∧
    (∀ c, (rows.map npArgmax).count c = 0 →
      precisionClass yt (rows.map npArgmax) c = 0) ∧
    (∀ c, yt.count c = 0 → recallClass yt (rows.map npArgmax) c = 0) ∧
    (∀ c, precisionClass yt (rows.map npArgmax) c +
        recallClass yt (rows.map npArgmax) c = 0 →
      f1Class yt (rows.map npArgmax) c = 0) := by
  refine ⟨⟨_, accuracy_eq_ok yt rows hrows hlen, accuracy_score_unit yt _⟩,
    ⟨_, macro_f1_score_eq_ok yt rows hrows hlen, f1_score_unit yt _⟩,
    ⟨_, macro_precision_eq_ok yt rows hrows hlen, precision_score_unit yt _⟩,
    ⟨_, macro_recall_eq_ok yt rows hrows hlen, recall_score_unit yt _⟩,
    ?_, ?_, ?_⟩
  · intro c hc
    simp [precisionClass, hc]
  · intro c hc
    simp [recallClass, hc]
  · intro c hc
    simp [f1Class, hc]

/-- Witness for C2 at `y_true = [0, 1]` and a 2×2 probability matrix
decoding to `[0, 1]`. -/
theorem C2_witness :
    (∃ v, accuracy [0, 1] (.twoD [[9, 1], [2, 8]]) = .ok v ∧ 0 ≤ v ∧ v ≤ 1) ∧
    (∃ v, macro_f1_score [0, 1] (.twoD [[9, 1], [2, 8]]) = .ok v ∧
      0 ≤ v ∧ v ≤ 1) ∧
    (∃ v, macro_precision [0, 1] (.twoD [[9, 1], [2, 8]]) = .ok v ∧
      0 ≤ v ∧ v ≤ 1) ∧
    (∃ v, macro_recall [0, 1] (.twoD [[9, 1], [2, 8]]) = .ok v ∧
      0 ≤ v ∧ v ≤ 1) ∧
    (∀ c, (([[9, 1], [2, 8]] : List (List ℚ)).map npArgmax).count c = 0 →
      precisionClass [0, 1] (([[9, 1], [2, 8]] : List (List ℚ)).map npArgmax)
        c = 0) ∧
    (∀ c, ([0, 1] : List ℕ).count c = 0 →
      recallClass [0, 1] (([[9, 1], [2, 8]] : List (List ℚ)).map npArgmax)
        c = 0) ∧
    (∀ c, precisionClass [0, 1]
        (([[9, 1], [2, 8]] : List (List ℚ)).map npArgmax) c +
        recallClass [0, 1]
          (([[9, 1], [2, 8]] : List (List ℚ)).map npArgmax) c = 0 →
      f1Class [0, 1] (([[9, 1], [2, 8]] : List (List ℚ)).map npArgmax)
        c = 0) :=
  C2_metrics_unit_interval [0, 1] [[9, 1], [2, 8]] (by decide)
    (by decide) (by decide)

/-! ## Claim C6 -/

/-- C6: every metric function decodes `y_pred` by per-row arg-max before
anything else, ties resolved in favour of the first occurrence (every
strictly earlier index holds a strictly smaller value than the decoded
entry, which is maximal); accuracy is then the fraction of positions where
the decoded label equals the true label; and on the two concrete examples
of the specification the decoding gives `[0,1,1,0]` (accuracy 1.0) and
`[1,0]` against `[0,1]` (accuracy 0.0). -/
theorem C6_argmax_decoding_and_accuracy (yt : List ℕ) (rows : List (List ℚ))
    (hlen : rows.length = yt.length) (hrows : ∀ r ∈ rows, r ≠ []) :
    accuracy yt (.twoD rows) =
      .ok ((((yt.zip (rows.map npArgmax)).countP fun p => p.1 == p.2) : ℚ) /
        (yt.length : ℚ)) ∧
    (∀ r ∈ rows, npArgmax r < r.length ∧
      (∀ j, j < r.length → r.getD j 0 ≤ r.getD (npArgmax r) 0) ∧
      (∀ j, j < npArgmax r → r.getD j 0 < r.getD (npArgmax r) 0)) ∧
    ([[9, 1], [2, 8], [3, 7], [6, 4]] : List (List ℚ)).map npArgmax =
      [0, 1, 1, 0] ∧
    accuracy [0, 1, 1, 0] (.twoD [[9, 1], [2, 8], [3, 7], [6, 4]]) = .ok 1 ∧
    ([[1, 9], [8, 2]] : List (List ℚ)).map npArgmax = [1, 0] ∧
    accuracy [0, 1] (.twoD [[1, 9], [8, 2]]) = .ok 0 := by
  refine ⟨accuracy_eq_ok yt rows hrows hlen, ?_, by decide, ?_, by decide, ?_⟩
  · intro r hr
    have hne := hrows r hr
    refine ⟨npArgmax_lt_length r hne, ?_, ?_⟩
    · intro j hj
      rw [getD_npArgmax r hne]
      exact getD_le_rowMax r j hj
    · intro j hj
      rw [getD_npArgmax r hne]
      exact getD_lt_rowMax_of_lt_npArgmax r j hj
  · rw [accuracy_eq_ok [0, 1, 1, 0] _ (by decide) (by decide)]
    norm_num [accuracy_score, show ([[9, 1], [2, 8], [3, 7], [6, 4]] :
      List (List ℚ)).map npArgmax = [0, 1, 1, 0] from by decide]
  · rw [accuracy_eq_ok [0, 1] _ (by decide) (by decide)]
    norm_num [accuracy_score, show ([[1, 9], [8, 2]] :
      List (List ℚ)).map npArgmax = [1, 0] from by decide]

/-- Witness for C6 at `y_true = [0, 1]` and a 2×2 probability matrix. -/
theorem C6_witness :
    accuracy [0, 1] (.twoD [[9, 1], [2, 8]]) =
      .ok (((([0, 1] : List ℕ).zip
        (([[9, 1], [2, 8]] : List (List ℚ)).map npArgmax)).countP
          (fun p => p.1 == p.2) : ℚ) / (([0, 1] : List ℕ).length : ℚ)) :=
  (C6_argmax_decoding_and_accuracy [0, 1] [[9, 1], [2, 8]] (by decide)
    (by decide)).1

/-! ## Claim C10 -/

/-- C10: the arg-max decoding happens before the error-wrapping `try`
region: a `y_pred` that cannot be decoded along rows (a 1-D array) makes
each metric raise the underlying decoding error directly (unwrapped),
while a failure after successful decoding — a length mismatch between
`y_true` and the decoded labels — is re-raised as the wrapped "score
cannot be computed" error naming the metric and carrying the cause. -/
theorem C10_decode_outside_try (yt : List ℕ) (v : List ℚ)
    (rows : List (List ℚ)) (hrows : ∀ r ∈ rows, r ≠ [])
    (hmis : rows.length ≠ yt.length) :
    (∃ m, accuracy yt (.oneD v) = .error (.raw m)) ∧
    (∃ m, macro_f1_score yt (.oneD v) = .error (.raw m)) ∧
    (∃ m, macro_precision yt (.oneD v) = .error (.raw m)) ∧
    (∃ m, macro_recall yt (.oneD v) = .error (.raw m)) ∧
    (∃ c, accuracy yt (.twoD rows) = .error (.wrapped "accuracy" c)) ∧
    (∃ c, macro_f1_score yt (.twoD rows) =
      .error (.wrapped "macro_f1_score" c)) ∧
    (∃ c, macro_precision yt (.twoD rows) =
      .error (.wrapped "macro_precision" c)) ∧
    (∃ c, macro_recall yt (.twoD rows) =
      .error (.wrapped "macro_recall" c)) := by
  have hdec := npArgmaxAxis1_twoD rows hrows
  have hlen : ¬ yt.length = rows.length := fun h => hmis h.symm
  have hchk : ∀ w : ℚ, checkLengths yt (rows.map npArgmax) w =
      .error lengthMismatchMsg := by
    intro w
    simp [checkLengths, hlen]
  refine ⟨⟨_, rfl⟩, ⟨_, rfl⟩, ⟨_, rfl⟩, ⟨_, rfl⟩, ⟨lengthMismatchMsg, ?_⟩,
    ⟨lengthMismatchMsg, ?_⟩, ⟨lengthMismatchMsg, ?_⟩, ⟨lengthMismatchMsg, ?_⟩⟩
  · simp [accuracy, hdec, hchk]
  · simp [macro_f1_score, hdec, hchk]
  · simp [macro_precision, hdec, hchk]
  · simp [macro_recall, hdec, hchk]

/-- Witness for C10: a 1-D prediction array and a decoded-length mismatch. -/
theorem C10_witness :
    (∃ m, accuracy [0, 1] (.oneD [1, 2, 3]) = .error (.raw m)) ∧
    (∃ m, macro_f1_score [0, 1] (.oneD [1, 2, 3]) = .error (.raw m)) ∧
    (∃ m, macro_precision [0, 1] (.oneD [1, 2, 3]) = .error (.raw m)) ∧
    (∃ m, macro_recall [0, 1] (.oneD [1, 2, 3]) = .error (.raw m)) ∧
    (∃ c, accuracy [0, 1] (.twoD [[1, 2]]) = .error (.wrapped "accuracy" c)) ∧
    (∃ c, macro_f1_score [0, 1] (.twoD [[1, 2]]) =
      .error (.wrapped "macro_f1_score" c)) ∧
    (∃ c, macro_precision [0, 1] (.twoD [[1, 2]]) =
      .error (.wrapped "macro_precision" c)) ∧
    (∃ c, macro_recall [0, 1] (.twoD [[1, 2]]) =
      .error (.wrapped "macro_recall" c)) :=
  C10_decode_outside_try [0, 1] [1, 2, 3] [[1, 2]] (by decide) (by decide)

/-! ## Claim C5 -/

/-- C5: whenever no metric fails, `compute_all_scores` returns the mapping
whose keys are exactly Accuracy, Macro F1 Score, Macro Precision and Macro
Recall (in dict insertion order), each bound to the value of the
corresponding metric function on `(y_true, y_pred)`. -/
theorem C5_compute_all_scores (yt : List ℕ) (yp : NDArray) (a f p r : ℚ)
    (ha : accuracy yt yp = .ok a) (hf : macro_f1_score yt yp = .ok f)
    (hp : macro_precision yt yp = .ok p) (hr : macro_recall yt yp = .ok r) :
    compute_all_scores yt yp = .ok [("Accuracy", a), ("Macro F1 Score", f),
      ("Macro Precision", p), ("Macro Recall", r)] ∧
    ∀ res, compute_all_scores yt yp = .ok res →
      res.map Prod.fst =
        ["Accuracy", "Macro F1 Score", "Macro Precision", "Macro Recall"] ∧
      res.lookup "Accuracy" = some a ∧
      res.lookup "Macro F1 Score" = some f ∧
      res.lookup "Macro Precision" = some p ∧
      res.lookup "Macro Recall" = some r := by
  have hmain : compute_all_scores yt yp = .ok [("Accuracy", a),
      ("Macro F1 Score", f), ("Macro Precision", p), ("Macro Recall", r)] := by
    simp [compute_all_scores, ha, hf, hp, hr, Bind.bind, Except.bind,
      Pure.pure, Except.pure]
  refine ⟨hmain, ?_⟩
  intro res hres
  rw [hmain] at hres
  injection hres with hres
  subst hres
  refine ⟨rfl, ?_, ?_, ?_, ?_⟩ <;> simp [List.lookup]

/-- Witness for C5 on a concrete pair where all four metrics succeed. -/
theorem C5_witness :
    compute_all_scores [0, 1] (.twoD [[9, 1], [2, 8]]) =
      .ok [("Accuracy",
              accuracy_score [0, 1]
                (([[9, 1], [2, 8]] : List (List ℚ)).map npArgmax)),
           ("Macro F1 Score",
              f1_score [0, 1]
                (([[9, 1], [2, 8]] : List (List ℚ)).map npArgmax)),
           ("Macro Precision",
              precision_score [0, 1]
                (([[9, 1], [2, 8]] : List (List ℚ)).map npArgmax)),
           ("Macro Recall",
              recall_score [0, 1]
                (([[9, 1], [2, 8]] : List (List ℚ)).map npArgmax))] :=
  (C5_compute_all_scores [0, 1] (.twoD [[9, 1], [2, 8]]) _ _ _ _
    (accuracy_eq_ok [0, 1] _ (by decide) (by decide))
    (macro_f1_score_eq_ok [0, 1] _ (by decide) (by decide))
    (macro_precision_eq_ok [0, 1] _ (by decide) (by decide))
    (macro_recall_eq_ok [0, 1] _ (by decide) (by decide))).1

/-! ## Claim C3 -/

/-- Counterexample to C3 as stated: `vprint` is not one of the four metric
functions, yet `get_score` does not raise `NotImplementedError` on it —
`getattr` resolves any attribute of the module namespace. -/
theorem C3_counterexample :
    "vprint" ∉ knownMetricNames ∧ get_score "vprint" ≠ none := by
  constructor
  · decide
  · simp [get_score, show "vprint" ∈ moduleAttributes from by decide]

/-- C3 (amended): `get_score` raises `NotImplementedError` exactly for
names that are not attributes of the module namespace; whenever it
succeeds it returns precisely the attribute that was named — no fallback
metric is substituted and no fuzzy matching happens — together with the
label obtained from the name by replacing underscores with spaces and
title-casing. -/
theorem C3_get_score_resolution (name : String) :
    (name ∉ moduleAttributes → get_score name = none) ∧
    (∀ lbl fn, get_score name = some (lbl, fn) →
      fn = name ∧ name ∈ moduleAttributes ∧
      lbl = pythonTitle (name.replace "_" " ")) := by
  constructor
  · intro h
    simp [get_score, h]
  · intro lbl fn h
    by_cases hm : name ∈ moduleAttributes
    · simp only [get_score, if_pos hm, Option.some.injEq, Prod.mk.injEq] at h
      exact ⟨h.2.symm, hm, h.1.symm⟩
    · simp [get_score, hm] at h

/-- Witness for C3 at an unknown name. -/
theorem C3_witness : get_score "unknown_metric" = none :=
  (C3_get_score_resolution "unknown_metric").1 (by decide)

/-! ## Heatmap lemmas -/

theorem min?_spec (c : List ℚ) (m : ℚ) (h : c.min? = some m) :
    m ∈ c ∧ ∀ x ∈ c, m ≤ x := by
  have anti : Std.Antisymm (α := ℚ) (· ≤ ·) := ⟨fun h h' => le_antisymm h h'⟩
  rw [List.min?_eq_some_iff] at h
  · exact h
  · exact le_refl
  · exact fun a b => min_choice a b
  · exact fun a b c => le_min_iff

theorem max?_spec (c : List ℚ) (m : ℚ) (h : c.max? = some m) :
    m ∈ c ∧ ∀ x ∈ c, x ≤ m := by
  have anti : Std.Antisymm (α := ℚ) (· ≤ ·) := ⟨fun h h' => le_antisymm h h'⟩
  rw [List.max?_eq_some_iff] at h
  · exact h
  · exact le_refl
  · exact fun a b => max_choice a b
  · exact fun a b c => max_le_iff

theorem npMin_eq_ok (c : List ℚ) (hc : c ≠ []) :
    ∃ m, npMin c = .ok m ∧ m ∈ c ∧ ∀ x ∈ c, m ≤ x := by
  cases hm : c.min? with
  | none => exact absurd (List.min?_eq_none_iff.mp hm) hc
  | some m =>
    exact ⟨m, by simp [npMin, hm], (min?_spec c m hm).1, (min?_spec c m hm).2⟩

theorem npMax_eq_ok (c : List ℚ) (hc : c ≠ []) :
    ∃ m, npMax c = .ok m ∧ m ∈ c ∧ ∀ x ∈ c, x ≤ m := by
  cases hm : c.max? with
  | none => exact absurd (List.max?_eq_none_iff.mp hm) hc
  | some m =>
    exact ⟨m, by simp [npMax, hm], (max?_spec c m hm).1, (max?_spec c m hm).2⟩

theorem heatLimits_some (cs : List (List ℚ)) (h : ∀ c ∈ cs, c ≠ []) :
    ∀ m M : ℚ, ∃ lo hi,
      heatLimits cs (some m, some M) = .ok (some lo, some hi) ∧
      (lo = m ∨ lo ∈ cs.flatten) ∧ lo ≤ m ∧ (∀ x ∈ cs.flatten, lo ≤ x) ∧
      (hi = M ∨ hi ∈ cs.flatten) ∧ M ≤ hi ∧ (∀ x ∈ cs.flatten, x ≤ hi) := by
  induction cs with
  | nil =>
    intro m M
    exact ⟨m, M, rfl, Or.inl rfl, le_refl m, by simp, Or.inl rfl, le_refl M,
      by simp⟩
  | cons c cs ih =>
    intro m M
    obtain ⟨l0, hl0, hl0mem, hl0min⟩ := npMin_eq_ok c (h c (by simp))
    obtain ⟨u0, hu0, hu0mem, hu0max⟩ := npMax_eq_ok c (h c (by simp))
    have hstep : heatLimits (c :: cs) (some m, some M) =
        heatLimits cs (some (min l0 m), some (max u0 M)) := by
      simp [heatLimits, hl0, hu0]
    obtain ⟨lo, hi, heq, hcase, hle, hall, hcase', hle', hall'⟩ :=
      ih (fun d hd => h d (List.mem_cons_of_mem c hd)) (min l0 m) (max u0 M)
    refine ⟨lo, hi, by rw [hstep, heq], ?_, ?_, ?_, ?_, ?_, ?_⟩
    · rcases hcase with hlo | hlo
      · rcases min_choice l0 m with hmin | hmin
        · refine Or.inr ?_
          rw [List.flatten_cons]
          refine List.mem_append_left _ ?_
          rw [hlo, hmin]
          exact hl0mem
        · refine Or.inl ?_
          rw [hlo, hmin]
      · refine Or.inr ?_
        rw [List.flatten_cons]
        exact List.mem_append_right _ hlo
    · exact hle.trans (min_le_right l0 m)
    · intro x hx
      rw [List.flatten_cons] at hx
      rcases List.mem_append.mp hx with hx | hx
      · exact le_trans (hle.trans (min_le_left l0 m)) (hl0min x hx)
      · exact hall x hx
    · rcases hcase' with hhi | hhi
      · rcases max_choice u0 M with hmax | hmax
        · refine Or.inr ?_
          rw [List.flatten_cons]
          refine List.mem_append_left _ ?_
          rw [hhi, hmax]
          exact hu0mem
        · refine Or.inl ?_
          rw [hhi, hmax]
      · refine Or.inr ?_
        rw [List.flatten_cons]
        exact List.mem_append_right _ hhi
    · exact le_trans (le_max_right u0 M) hle'
    · intro x hx
      rw [List.flatten_cons] at hx
      rcases List.mem_append.mp hx with hx | hx
      · exact le_trans (hu0max x hx) (le_trans (le_max_left u0 M) hle')
      · exact hall' x hx

theorem heatLimits_error_of_empty (cs : List (List ℚ)) (c : List ℚ)
    (hc : c ∈ cs) (he : c = []) :
    ∀ acc, ∃ e, heatLimits cs acc = .error e := by
  induction cs with
  | nil => simp at hc
  | cons d ds ih =>
    intro acc
    by_cases hd : d = []
    · subst hd
      exact ⟨_, rfl⟩
    · obtain ⟨m, hm, -, -⟩ := npMin_eq_ok d hd
      obtain ⟨M, hM, -, -⟩ := npMax_eq_ok d hd
      have hc' : c ∈ ds := by
        rcases List.mem_cons.mp hc with h | h
        · exact absurd (h ▸ he) hd
        · exact h
      obtain ⟨e, he'⟩ := ih hc' (some (match acc.1 with
        | none => m | some a => min m a), some (match acc.2 with
        | none => M | some a => max M a))
      exact ⟨e, by simp [heatLimits, hm, hM]; exact he'⟩

/-! ## Bin-edge and histogram lemmas -/

theorem np_linspace_length (lo hi : ℚ) (n : ℕ) :
    (np_linspace lo hi n).length = n := by
  simp [np_linspace]

theorem np_linspace_getD (lo hi : ℚ) (n j : ℕ) (hj : j < n) :
    (np_linspace lo hi n).getD j 0 =
      lo + (hi - lo) * (j : ℚ) / ((n - 1 : ℕ) : ℚ) := by
  unfold np_linspace
  rw [List.getD_eq_getElem _ _ (by simpa using hj), List.getElem_map,
    List.getElem_range]

theorem np_linspace_self (v : ℚ) (n : ℕ) :
    np_linspace v v n = List.replicate n v := by
  simp [np_linspace, List.map_const']

theorem np_histogram_all_eq_value (c : List ℚ) (v : ℚ)
    (hv : ∀ x ∈ c, x = v) :
    np_histogram c (List.replicate 11 v) =
      [0, 0, 0, 0, 0, 0, 0, 0, 0, c.length] := by
  have h1 : (c.countP fun x => decide (x < v)) = 0 := by
    rw [List.countP_eq_zero]
    intro x hx
    simp [hv x hx]
  have h2 : (c.countP fun x => decide (x ≤ v)) = c.length := by
    rw [List.countP_eq_length]
    intro x hx
    simp [hv x hx]
  have hget : ∀ j, j < 11 → (List.replicate 11 v).getD j 0 = v := by
    intro j hj
    rw [List.getD_eq_getElem _ _ (by simpa using hj), List.getElem_replicate]
  unfold np_histogram
  have hcong : ∀ j ∈ List.range 10,
      ((if j + 2 = (List.replicate 11 v).length then
          c.countP fun x => x ≤ (List.replicate 11 v).getD (j + 1) 0
        else c.countP fun x => x < (List.replicate 11 v).getD (j + 1) 0)
        - c.countP fun x => x < (List.replicate 11 v).getD j 0 : ℕ) =
      if j = 9 then c.length else 0 := by
    intro j hj
    rw [List.mem_range] at hj
    simp only [hget j (by omega), hget (j + 1) (by omega),
      List.length_replicate]
    by_cases h9 : j = 9
    · subst h9
      norm_num [h1, h2]
    · have hne : ¬ (j + 2 = 11) := by omega
      simp [hne, h9, h1]
  show (List.range 10).map _ = _
  rw [List.map_congr_left hcong]
  rfl

theorem heatLimits_const (cs : List (List ℚ)) (v : ℚ)
    (h : ∀ c ∈ cs, c ≠ []) (hv : ∀ c ∈ cs, ∀ x ∈ c, x = v) :
    heatLimits cs (some v, some v) = .ok (some v, some v) := by
  induction cs with
  | nil => rfl
  | cons c cs ih =>
    obtain ⟨m, hm, hmem, -⟩ := npMin_eq_ok c (h c (by simp))
    obtain ⟨M, hM, hMem, -⟩ := npMax_eq_ok c (h c (by simp))
    have hmv : m = v := hv c (by simp) m hmem
    have hMv : M = v := hv c (by simp) M hMem
    rw [hmv] at hm
    rw [hMv] at hM
    have hstep : heatLimits (c :: cs) (some v, some v) =
        heatLimits cs (some (min v v), some (max v v)) := by
      simp [heatLimits, hm, hM]
    rw [hstep, min_self, max_self]
    exact ih (fun d hd => h d (List.mem_cons_of_mem c hd))
      (fun d hd => hv d (List.mem_cons_of_mem c hd))

theorem create_heatmap_const (colls : List (List ℚ)) (v : ℚ)
    (hcne : colls ≠ []) (h : ∀ c ∈ colls, c ≠ [])
    (hv : ∀ c ∈ colls, ∀ x ∈ c, x = v) :
    create_heatmap colls =
      .ok (colls.map fun c => [0, 0, 0, 0, 0, 0, 0, 0, 0, c.length]) := by
  cases colls with
  | nil => exact absurd rfl hcne
  | cons c cs =>
    obtain ⟨m, hm, hmem, -⟩ := npMin_eq_ok c (h c (by simp))
    obtain ⟨M, hM, hMem, -⟩ := npMax_eq_ok c (h c (by simp))
    have hmv : m = v := hv c (by simp) m hmem
    have hMv : M = v := hv c (by simp) M hMem
    rw [hmv] at hm
    rw [hMv] at hM
    have hstep : heatLimits (c :: cs) (none, none) =
        heatLimits cs (some v, some v) := by
      simp [heatLimits, hm, hM]
    have hlim : heatLimits (c :: cs) (none, none) = .ok (some v, some v) := by
      rw [hstep]
      exact heatLimits_const cs v (fun d hd => h d (List.mem_cons_of_mem c hd))
        (fun d hd => hv d (List.mem_cons_of_mem c hd))
    have hmap : ∀ d ∈ c :: cs, np_histogram d (np_linspace v v 11) =
        [0, 0, 0, 0, 0, 0, 0, 0, 0, d.length] := by
      intro d hd
      rw [np_linspace_self]
      exact np_histogram_all_eq_value d v (hv d hd)
    simp only [create_heatmap, hlim]
    rw [List.map_congr_left hmap]

/-! ## Claim C7 -/

/-- Counterexample to C7 as stated: a single degenerate (one-element)
collection does **not** make `create_heatmap` signal any error — the
bounds are finite and equal, the eleven bin edges coincide, and a
collapsed grid is produced (all samples land in the right-inclusive last
bin). -/
theorem C7_counterexample :
    (∀ c ∈ [[(1 : ℚ) / 2]], ∀ x ∈ c, ∀ y ∈ c, x = y) ∧
    create_heatmap [[(1 : ℚ) / 2]] = .ok [[0, 0, 0, 0, 0, 0, 0, 0, 0, 1]] ∧
    ∀ e, create_heatmap [[(1 : ℚ) / 2]] ≠ .error e := by
  have h := create_heatmap_const [[(1 : ℚ) / 2]] ((1 : ℚ) / 2) (by simp)
    (by simp) (by intro c hc x hx; simp at hc; subst hc; simpa using hx)
  refine ⟨?_, by simpa using h, ?_⟩
  · intro c hc x hx y hy
    simp at hc
    subst hc
    simp at hx hy
    rw [hx, hy]
  · intro e he
    rw [he] at h
    exact absurd h (by simp)

/-- C7 (amended): `create_heatmap` has no guard of its own.  If some
group's collection is empty, the NumPy reduction `np.min` raises and that
underlying error propagates out of `create_heatmap`; but if all
collections are nonempty and degenerate (one repeated value), the global
bounds are finite and equal — not an inverted infinite pair — and
`create_heatmap` silently produces the collapsed grid whose rows put every
sample in the last bin, instead of signaling a ComputationError. -/
theorem C7_degenerate_behaviour (colls : List (List ℚ)) (v : ℚ) :
    ((∃ c ∈ colls, c = []) → ∃ e, heatLimits colls (none, none) = .error e ∧
      create_heatmap colls = .error e) ∧
    (colls ≠ [] → (∀ c ∈ colls, c ≠ []) → (∀ c ∈ colls, ∀ x ∈ c, x = v) →
      create_heatmap colls =
        .ok (colls.map fun c => [0, 0, 0, 0, 0, 0, 0, 0, 0, c.length])) := by
  constructor
  · rintro ⟨c, hc, he⟩
    obtain ⟨e, he'⟩ := heatLimits_error_of_empty colls c hc he (none, none)
    exact ⟨e, he', by simp [create_heatmap, he']⟩
  · intro h1 h2 h3
    exact create_heatmap_const colls v h1 h2 h3

/-- Witness for the amended C7: an empty collection propagates the NumPy
error; an all-degenerate input produces a collapsed grid. -/
theorem C7_witness :
    (∃ e, create_heatmap [[], [(1 : ℚ)]] = .error e) ∧
    create_heatmap [[(3 : ℚ), 3]] = .ok [[0, 0, 0, 0, 0, 0, 0, 0, 0, 2]] := by
  constructor
  · obtain ⟨e, -, he⟩ := (C7_degenerate_behaviour [[], [(1 : ℚ)]] 0).1
      ⟨[], by simp, rfl⟩
    exact ⟨e, he⟩
  · have h := (C7_degenerate_behaviour [[(3 : ℚ), 3]] 3).2 (by simp) (by simp)
      (by intro c hc x hx; simp at hc; subst hc; simpa using hx)
    simpa using h

/-! ## Claim C8 -/

/-- C8: for at least two groups with nonempty collections,
`create_heatmap` computes one shared edge set of 11 edges (10 equal-width
bins) spanning the global minimum and maximum over all groups'
collections, and the produced grid has, at row `i`, the per-bin counts of
group `i` of the input key list against those shared edges. -/
theorem C8_heatmap_shared_bins (colls : List (List ℚ))
    (h2 : 2 ≤ colls.length) (hne : ∀ c ∈ colls, c ≠ []) :
    ∃ lo hi,
      lo ∈ colls.flatten ∧ hi ∈ colls.flatten ∧
      (∀ x ∈ colls.flatten, lo ≤ x ∧ x ≤ hi) ∧
      create_heatmap colls =
        .ok (colls.map fun c => np_histogram c (np_linspace lo hi 11)) ∧
      (np_linspace lo hi 11).length = 11 ∧
      (np_linspace lo hi 11).getD 0 0 = lo ∧
      (np_linspace lo hi 11).getD 10 0 = hi ∧
      (∀ j, j < 10 → (np_linspace lo hi 11).getD (j + 1) 0 -
        (np_linspace lo hi 11).getD j 0 = (hi - lo) / 10) ∧
      (∀ i, i < colls.length →
        (colls.map fun c => np_histogram c (np_linspace lo hi 11)).getD i []
          = np_histogram (colls.getD i []) (np_linspace lo hi 11)) := by
  cases colls with
  | nil => simp at h2
  | cons c cs =>
    obtain ⟨l0, hl0, hl0mem, hl0min⟩ := npMin_eq_ok c (hne c (by simp))
    obtain ⟨u0, hu0, hu0mem, hu0max⟩ := npMax_eq_ok c (hne c (by simp))
    have hstep : heatLimits (c :: cs) (none, none) =
        heatLimits cs (some l0, some u0) := by
      simp [heatLimits, hl0, hu0]
    obtain ⟨lo, hi, heq, hcase, hle, hall, hcase', hle', hall'⟩ :=
      heatLimits_some cs (fun d hd => hne d (List.mem_cons_of_mem c hd)) l0 u0
    have hlim : heatLimits (c :: cs) (none, none) = .ok (some lo, some hi) := by
      rw [hstep, heq]
    refine ⟨lo, hi, ?_, ?_, ?_, by simp only [create_heatmap, hlim], ?_, ?_,
      ?_, ?_, ?_⟩
    · rw [List.flatten_cons]
      rcases hcase with hlo | hlo
      · exact List.mem_append_left _ (hlo ▸ hl0mem)
      · exact List.mem_append_right _ hlo
    · rw [List.flatten_cons]
      rcases hcase' with hhi | hhi
      · exact List.mem_append_left _ (hhi ▸ hu0mem)
      · exact List.mem_append_right _ hhi
    · intro x hx
      rw [List.flatten_cons] at hx
      rcases List.mem_append.mp hx with hx | hx
      · exact ⟨le_trans (hle.trans (le_refl l0)) (hl0min x hx),
          le_trans (hu0max x hx) hle'⟩
      · exact ⟨hall x hx, hall' x hx⟩
    · exact np_linspace_length lo hi 11
    · rw [np_linspace_getD lo hi 11 0 (by norm_num)]
      norm_num
    · rw [np_linspace_getD lo hi 11 10 (by norm_num)]
      push_cast
      norm_num
    · intro j hj
      rw [np_linspace_getD lo hi 11 (j + 1) (by omega),
        np_linspace_getD lo hi 11 j (by omega)]
      push_cast
      norm_num
      ring
    · intro i hi'
      rw [List.getD_eq_getElem _ _ (by simpa using hi'),
        List.getD_eq_getElem _ _ hi', List.getElem_map]

/-- Witness for C8 at two singleton groups. -/
theorem C8_witness :
    ∃ lo hi,
      lo ∈ ([[(1 : ℚ)], [2]] : List (List ℚ)).flatten ∧
      hi ∈ ([[(1 : ℚ)], [2]] : List (List ℚ)).flatten ∧
      (∀ x ∈ ([[(1 : ℚ)], [2]] : List (List ℚ)).flatten, lo ≤ x ∧ x ≤ hi) ∧
      create_heatmap [[(1 : ℚ)], [2]] =
        .ok (([[(1 : ℚ)], [2]] : List (List ℚ)).map
          fun c => np_histogram c (np_linspace lo hi 11)) ∧
      (np_linspace lo hi 11).length = 11 ∧
      (np_linspace lo hi 11).getD 0 0 = lo ∧
      (np_linspace lo hi 11).getD 10 0 = hi ∧
      (∀ j, j < 10 → (np_linspace lo hi 11).getD (j + 1) 0 -
        (np_linspace lo hi 11).getD j 0 = (hi - lo) / 10) ∧
      (∀ i, i < ([[(1 : ℚ)], [2]] : List (List ℚ)).length →
        (([[(1 : ℚ)], [2]] : List (List ℚ)).map
          fun c => np_histogram c (np_linspace lo hi 11)).getD i []
          = np_histogram (([[(1 : ℚ)], [2]] : List (List ℚ)).getD i [])
              (np_linspace lo hi 11)) :=
  C8_heatmap_shared_bins [[(1 : ℚ)], [2]] (by norm_num) (by simp)

/-! ## Claims C1, C4, C9: mean_confidence_interval -/

/-- C1: `mean_confidence_interval(data, confidence)` performs the three-way
case analysis on n = len(data): n = 0 gives (absent, absent); n = 1 gives
(the single element, 0.0); n > 1 gives (arithmetic mean, standard error ×
Student-t quantile at tail probability (1+confidence)/2 with n−1 degrees
of freedom), where the standard error is the sample standard deviation
(ddof = 1) divided by √n. -/
theorem C1_mci_case_analysis (tppf : ℝ → ℕ → ℝ) (data : List ℝ)
    (confidence : ℝ) :
    (data.length = 0 →
      mean_confidence_interval tppf data confidence = (none, none)) ∧
    (data.length = 1 → ∃ x, data = [x] ∧
      mean_confidence_interval tppf data confidence = (some x, some 0)) ∧
    (1 < data.length → mean_confidence_interval tppf data confidence =
      (some (data.sum / (data.length : ℝ)),
       some ((Real.sqrt
           ((data.map fun x => (x - data.sum / (data.length : ℝ)) ^ 2).sum /
             ((data.length : ℝ) - 1)) / Real.sqrt (data.length : ℝ)) *
         tppf ((1 + confidence) / 2) (data.length - 1)))) := by
  refine ⟨?_, ?_, ?_⟩
  · intro h
    simp [mean_confidence_interval, h]
  · intro h
    obtain ⟨x, hx⟩ := List.length_eq_one.mp h
    subst hx
    exact ⟨x, rfl, by simp [mean_confidence_interval]⟩
  · intro h
    have h0 : ¬ data.length = 0 := by omega
    simp [mean_confidence_interval, h0, h, np_mean, scipy_sem, sample_std]

/-- Witness for C1 at the empty list and a singleton. -/
theorem C1_witness :
    mean_confidence_interval (fun _ _ => 1) [] (95 / 100) = (none, none) ∧
    mean_confidence_interval (fun _ _ => 1) [(5 : ℝ)] (95 / 100) =
      (some 5, some 0) := by
  constructor
  · exact (C1_mci_case_analysis (fun _ _ => 1) [] (95 / 100)).1 rfl
  · obtain ⟨x, hx, h⟩ :=
      (C1_mci_case_analysis (fun _ _ => 1) [(5 : ℝ)] (95 / 100)).2.1 rfl
    have hx5 : x = 5 := by simpa using hx.symm
    rw [hx5] at h
    exact h

/-- C4: at the default confidence level, the half-width returned by
`mean_confidence_interval` is always ≥ 0 (given that the Student-t
quantile at tail probability 0.975 is nonnegative, which holds since the
t distribution has median 0), is exactly 0 for a one-element list, and is
absent together with the mean for an empty list. -/
theorem C4_half_width_nonneg (tppf : ℝ → ℕ → ℝ)
    (hpos : ∀ df, 0 ≤ tppf ((1 + 95 / 100) / 2) df) (data : List ℝ) :
    (data = [] →
      mean_confidence_interval tppf data (95 / 100) = (none, none)) ∧
    (data.length = 1 →
      (mean_confidence_interval tppf data (95 / 100)).2 = some 0) ∧
    (∀ hw, (mean_confidence_interval tppf data (95 / 100)).2 = some hw →
      0 ≤ hw) := by
  refine ⟨?_, ?_, ?_⟩
  · intro h
    subst h
    rfl
  · intro h
    simp [mean_confidence_interval, h]
  · intro hw hhw
    by_cases h0 : data.length = 0
    · simp [mean_confidence_interval, h0] at hhw
    · by_cases h1 : 1 < data.length
      · simp only [mean_confidence_interval, h0, h1, if_false, if_true,
          if_neg, if_pos, Option.some.injEq] at hhw
        rw [← hhw]
        have hsem : 0 ≤ scipy_sem data := by
          unfold scipy_sem sample_std
          positivity
        exact mul_nonneg hsem (hpos _)
      · have hone : data.length = 1 := by omega
        simp [mean_confidence_interval, hone] at hhw
        rw [← hhw]

/-- Witness for C4 at the empty list and a singleton. -/
theorem C4_witness :
    mean_confidence_interval (fun _ _ => 1) [] (95 / 100) = (none, none) ∧
    (mean_confidence_interval (fun _ _ => 1) [(7 : ℝ)] (95 / 100)).2 =
      some 0 := by
  constructor
  · exact (C4_half_width_nonneg (fun _ _ => 1) (fun _ => by norm_num) []).1
      rfl
  · exact (C4_half_width_nonneg (fun _ _ => 1) (fun _ => by norm_num)
      [(7 : ℝ)]).2.1 rfl

/-- C9: `mean_confidence_interval` returns the same (mean, half-width) pair
on any permutation of the score list — the reduction is order
independent. -/
theorem C9_permutation_invariant (tppf : ℝ → ℕ → ℝ) (confidence : ℝ)
    (d1 d2 : List ℝ) (hperm : d1.Perm d2) :
    mean_confidence_interval tppf d1 confidence =
      mean_confidence_interval tppf d2 confidence := by
  have hlen : d1.length = d2.length := hperm.length_eq
  have hsum : d1.sum = d2.sum := hperm.sum_eq
  have hmean : np_mean d1 = np_mean d2 := by
    unfold np_mean
    rw [hsum, hlen]
  have hvar : (d1.map fun x => (x - np_mean d1) ^ 2).sum =
      (d2.map fun x => (x - np_mean d2) ^ 2).sum := by
    rw [hmean]
    exact (hperm.map _).sum_eq
  have hsem : scipy_sem d1 = scipy_sem d2 := by
    unfold scipy_sem sample_std
    rw [hvar, hlen]
  by_cases h0 : d1.length = 0
  · have h0' : d2.length = 0 := by omega
    simp [mean_confidence_interval, h0, h0']
  · by_cases h1 : 1 < d1.length
    · have h0' : ¬ d2.length = 0 := by omega
      have h1' : 1 < d2.length := hlen ▸ h1
      unfold mean_confidence_interval
      rw [if_neg h0, if_neg h0', if_pos h1, if_pos h1', hmean, hsem, hlen]
    · have hone : d1.length = 1 := by omega
      obtain ⟨x, hx⟩ := List.length_eq_one.mp hone
      subst hx
      have hd2 : d2 = [x] := List.perm_singleton.mp hperm.symm
      subst hd2
      rfl

/-- Witness for C9: a two-element list and its transposition. -/
theorem C9_witness :
    mean_confidence_interval (fun _ _ => 1) [(1 : ℝ), 2] (95 / 100) =
      mean_confidence_interval (fun _ _ => 1) [(2 : ℝ), 1] (95 / 100) :=
  C9_permutation_invariant (fun _ _ => 1) (95 / 100) [(1 : ℝ), 2]
    [(2 : ℝ), 1] (List.Perm.swap 2 1 [])

end ScoringHelpers
